import Mathlib

/-!
Verification development for the Shinkai secure message envelope and
addressing protocol (Cotalker/shinkai-node).  The repository ships the
protocol logic as a compiled wasm module; the JavaScript/TypeScript files
under the package expose only wasm-bindgen glue.  Definitions below are
therefore shallow embeddings: where the deciding Rust source is absent,
the definition is modelled from the specification text and its doc
comment says so; where JavaScript/TypeScript source is present (the
binding layer, the app-side wrapper) the definition follows that source.
Identifiers and payloads are modelled as character lists, byte strings as
lists of naturals, and the canonical wire form as a list of wire atoms.
-/

/-- The encryption method enum, from the package type declarations
(EncryptionMethod: DiffieHellmanChaChaPoly1305 = 0, None = 1). -/
inductive EncryptionMethod where
  | DiffieHellmanChaChaPoly1305 : EncryptionMethod
  | None : EncryptionMethod
deriving DecidableEq, Repr

/-- Ordinal value of an encryption method, following the numeric values
declared in the package type declarations. -/
def EncryptionMethod.ordinal : EncryptionMethod → Nat
  | .DiffieHellmanChaChaPoly1305 => 0
  | .None => 1

/-- Decode an ordinal back to an encryption method; ordinals other than
0 and 1 are not assigned. -/
def EncryptionMethod.ofOrdinal : Nat → Option EncryptionMethod
  | 0 => some .DiffieHellmanChaChaPoly1305
  | 1 => some .None
  | _ => none

/-- Modelled from the spec: one atom of the canonical serialized wire
form (the Rust serializer behind to_json_str is not in the source tree).
Content atoms (characters and bytes) are kept distinct from the
structural atoms (separators, body-variant tags, method ordinals), which
models a quoting-correct canonical encoding. -/
inductive Wire where
  | ch : Char → Wire
  | byte : Nat → Wire
  | sep : Wire
  | tagU : Wire
  | tagE : Wire
  | m0 : Wire
  | m1 : Wire
deriving DecidableEq, Repr

/-- Encode a character-list field as content atoms closed by a separator. -/
def chSeg (s : List Char) : List Wire :=
  s.map Wire.ch ++ [Wire.sep]

/-- Encode a byte-list field as content atoms closed by a separator. -/
def byteSeg (s : List Nat) : List Wire :=
  s.map Wire.byte ++ [Wire.sep]

/-- Wire atom for an encryption method ordinal. -/
def methodWire : EncryptionMethod → Wire
  | .DiffieHellmanChaChaPoly1305 => Wire.m0
  | .None => Wire.m1

/-- Read a character-list field: content atoms up to the separator. -/
def readChSeg : List Wire → Option (List Char × List Wire)
  | Wire.sep :: rest => some ([], rest)
  | Wire.ch c :: rest =>
      match readChSeg rest with
      | some (s, r) => some (c :: s, r)
      | none => none
  | _ => none

/-- Read a byte-list field: content atoms up to the separator. -/
def readByteSeg : List Wire → Option (List Nat × List Wire)
  | Wire.sep :: rest => some ([], rest)
  | Wire.byte b :: rest =>
      match readByteSeg rest with
      | some (s, r) => some (b :: s, r)
      | none => none
  | _ => none

/-- Read an encryption-method atom. -/
def readMethod : List Wire → Option (EncryptionMethod × List Wire)
  | Wire.m0 :: rest => some (.DiffieHellmanChaChaPoly1305, rest)
  | Wire.m1 :: rest => some (.None, rest)
  | _ => none

/-- Crypto error taxonomy from the spec (the Rust crypto layer using
x25519-dalek / chacha20poly1305 / ed25519-dalek is not in the source
tree). -/
inductive CryptoError where
  | DecryptionFailed : CryptoError
  | InvalidKeyMaterial : CryptoError
deriving DecidableEq, Repr

/-- Modelled from the spec: the shared secret produced by
derive_shared_secret (elliptic-curve Diffie-Hellman in the missing Rust
crate).  Modelled as the pair of the contributing key strings, which
makes the derivation deterministic in its inputs as the spec requires. -/
structure SharedSecret where
  sk_part : List Char
  pk_part : List Char
deriving DecidableEq, Repr

/-- Modelled from the spec: derive_shared_secret(my_secret_key,
their_public_key); deterministic for a given key pair. -/
def derive_shared_secret (my_secret_key their_public_key : List Char) : SharedSecret :=
  ⟨my_secret_key, their_public_key⟩

/-- One mixing byte derived from a shared secret, used as the keystream
of the idealized cipher model. -/
def keyByte (k : SharedSecret) : Nat :=
  (k.sk_part ++ k.pk_part).foldl (fun a c => a ^^^ c.toNat) 0

/-- Mask a byte string with the keystream of a shared secret; masking is
an involution, which gives the cipher its decryption direction. -/
def maskBytes (k : SharedSecret) (p : List Nat) : List Nat :=
  p.map (fun b => b ^^^ keyByte k)

/-- Modelled from the spec: an authenticated ciphertext.  The ChaCha20-
Poly1305 AEAD lives in the missing Rust crate; it is idealized here as a
masked payload together with an unforgeable tag that commits to the
exact key, so authentication checking is exact key comparison. -/
structure Ciphertext where
  data : List Nat
  tag_sk : List Char
  tag_pk : List Char
deriving DecidableEq, Repr

/-- Modelled from the spec: encrypt(plaintext, shared_secret) ->
ciphertext, authenticated symmetric encryption. -/
def encrypt (p : List Nat) (k : SharedSecret) : Ciphertext :=
  ⟨maskBytes k p, k.sk_part, k.pk_part⟩

/-- Modelled from the spec: decrypt(ciphertext, shared_secret) ->
plaintext | DecryptionFailed; fails closed (returns no data) when the
authentication tag does not match the presented key. -/
def decrypt (c : Ciphertext) (k : SharedSecret) : Except CryptoError (List Nat) :=
  if k.sk_part = c.tag_sk ∧ k.pk_part = c.tag_pk then
    Except.ok (maskBytes k c.data)
  else
    Except.error CryptoError.DecryptionFailed

/-- Modelled from the spec: a verifying (public) key; idealized as a tag
committing to the signing key it was derived from. -/
structure VerifyingKey where
  of_sk : List Char
deriving DecidableEq, Repr

/-- Modelled from the spec: derive the public counterpart of a signing
key (ed25519 key derivation lives in the missing Rust crate). -/
def public_of_signing_key (sk : List Char) : VerifyingKey :=
  ⟨sk⟩

/-- Modelled from the spec: a detached signature.  The ed25519 scheme in
the missing Rust crate is idealized as an unforgeable commitment to the
exact signed bytes and the signing key. -/
structure Signature where
  signed : List Nat
  signer : List Char
deriving DecidableEq, Repr

/-- Modelled from the spec: sign(data, signing_key) -> signature over
the canonical serialized envelope bytes. -/
def sign (data : List Nat) (signing_key : List Char) : Signature :=
  ⟨data, signing_key⟩

/-- Modelled from the spec: verify(data, signature, public_key) -> bool;
true exactly when the signature commits to these bytes and to the
signing key behind the public key. -/
def verify (data : List Nat) (s : Signature) (pk : VerifyingKey) : Bool :=
  decide (data = s.signed) && decide (pk = public_of_signing_key s.signer)

/-- Modelled from the spec: the fixed-size digest returned by
calculate_blake3_hash.  The BLAKE3 implementation lives in the missing
Rust crate; the spec contract (identical for byte-identical input,
different under any single-bit difference) is modelled by an idealized
collision-free digest that commits to the whole input. -/
structure Blake3Digest where
  commits : List Nat
deriving DecidableEq, Repr

/-- Modelled from the spec: content_hash(canonical_bytes) -> digest,
deterministic and collision-free in the idealized model. -/
def calculate_blake3_hash (input : List Nat) : Blake3Digest :=
  ⟨input⟩

/-- Flip bit j of byte i of a byte string. -/
def flipBit (input : List Nat) (i j : Nat) : List Nat :=
  input.set i ((input.getD i 0) ^^^ 2 ^ j)

/-- Internal metadata of an unencrypted message body, from the spec data
model and the builder setter internal_metadata(sender_subidentity,
recipient_subidentity, encryption) with its inbox-pinning variant. -/
structure InternalMetadata where
  sender_subidentity : List Char
  recipient_subidentity : List Char
  inbox : List Char
  encryption : EncryptionMethod
deriving DecidableEq, Repr

/-- Unencrypted message data: { internal_metadata, raw_content, schema }
from the spec data model. -/
structure MessageData where
  raw_content : List Char
  message_schema : List Char
  internal_metadata : InternalMetadata
deriving DecidableEq, Repr

/-- The message body union: Unencrypted message data or Encrypted
ciphertext bytes, from the spec data model. -/
inductive MessageBody where
  | unencrypted : MessageData → MessageBody
  | encrypted : Ciphertext → MessageBody
deriving DecidableEq, Repr

/-- External metadata: sender, recipient, scheduled time, signature and
the optional other field, from the spec data model. -/
structure ExternalMetadata where
  sender : List Char
  recipient : List Char
  scheduled_time : List Char
  signature : Signature
  other : List Char
deriving DecidableEq, Repr

/-- The wire envelope: body, external metadata and the encryption
method, from the spec data model and the wrapper accessors (message_body,
external_metadata, encryption). -/
structure ShinkaiMessage where
  body : MessageBody
  external_metadata : ExternalMetadata
  encryption : EncryptionMethod
deriving DecidableEq, Repr

/-- Modelled from the spec: canonical serialization of a message body
(the serde serializer behind to_json_str is not in the source tree).  A
variant tag is followed by the fields in declaration order. -/
def serializeBody : MessageBody → List Wire
  | .unencrypted d =>
      Wire.tagU :: (chSeg d.raw_content ++ chSeg d.message_schema ++
        chSeg d.internal_metadata.sender_subidentity ++
        chSeg d.internal_metadata.recipient_subidentity ++
        chSeg d.internal_metadata.inbox ++
        [methodWire d.internal_metadata.encryption])
  | .encrypted c =>
      Wire.tagE :: (byteSeg c.data ++ chSeg c.tag_sk ++ chSeg c.tag_pk)

/-- Modelled from the spec: canonical serialization of external
metadata, fields in declaration order. -/
def serializeExternal (em : ExternalMetadata) : List Wire :=
  chSeg em.sender ++ chSeg em.recipient ++ chSeg em.scheduled_time ++
    byteSeg em.signature.signed ++ chSeg em.signature.signer ++ chSeg em.other

/-- Modelled from the spec: the canonical serialized wire form of an
envelope (body, external_metadata, encryption), the form produced by
to_json_str / build_to_string in the missing Rust crate. -/
def serializeMessage (m : ShinkaiMessage) : List Wire :=
  serializeBody m.body ++ serializeExternal m.external_metadata ++
    [methodWire m.encryption]

/-- Errors of wasm-level deserialization and construction. -/
inductive WasmError where
  | InvalidShinkaiMessage : WasmError
deriving DecidableEq, Repr

/-- Modelled from the spec: read a message body from the wire form. -/
def readBody : List Wire → Option (MessageBody × List Wire)
  | Wire.tagU :: rest =>
      match readChSeg rest with
      | none => none
      | some (raw, r1) =>
        match readChSeg r1 with
        | none => none
        | some (schema, r2) =>
          match readChSeg r2 with
          | none => none
          | some (ssub, r3) =>
            match readChSeg r3 with
            | none => none
            | some (rsub, r4) =>
              match readChSeg r4 with
              | none => none
              | some (inbox, r5) =>
                match readMethod r5 with
                | none => none
                | some (enc, r6) =>
                    some (MessageBody.unencrypted ⟨raw, schema, ⟨ssub, rsub, inbox, enc⟩⟩, r6)
  | Wire.tagE :: rest =>
      match readByteSeg rest with
      | none => none
      | some (data, r1) =>
        match readChSeg r1 with
        | none => none
        | some (tsk, r2) =>
          match readChSeg r2 with
          | none => none
          | some (tpk, r3) => some (MessageBody.encrypted ⟨data, tsk, tpk⟩, r3)
  | _ => none

/-- Modelled from the spec: read external metadata from the wire form. -/
def readExternal (w : List Wire) : Option (ExternalMetadata × List Wire) :=
  match readChSeg w with
  | none => none
  | some (sender, r1) =>
    match readChSeg r1 with
    | none => none
    | some (recipient, r2) =>
      match readChSeg r2 with
      | none => none
      | some (time, r3) =>
        match readByteSeg r3 with
        | none => none
        | some (sgd, r4) =>
          match readChSeg r4 with
          | none => none
          | some (sgr, r5) =>
            match readChSeg r5 with
            | none => none
            | some (other, r6) => some (⟨sender, recipient, time, ⟨sgd, sgr⟩, other⟩, r6)

/-- Modelled from the spec: parse the canonical wire form back into an
envelope; the wasm-level from_json_str.  Trailing atoms are rejected. -/
def parseMessage (w : List Wire) : Except WasmError ShinkaiMessage :=
  match readBody w with
  | none => Except.error WasmError.InvalidShinkaiMessage
  | some (b, r1) =>
    match readExternal r1 with
    | none => Except.error WasmError.InvalidShinkaiMessage
    | some (em, r2) =>
      match readMethod r2 with
      | none => Except.error WasmError.InvalidShinkaiMessage
      | some (enc, r3) =>
          match r3 with
          | [] => Except.ok ⟨b, em, enc⟩
          | _ => Except.error WasmError.InvalidShinkaiMessage

/-- Byte reading of one wire atom, fixing the canonical byte mapping of
the wire form. -/
def wireByte : Wire → Nat
  | .ch c => c.toNat
  | .byte b => b
  | .sep => 0
  | .tagU => 1
  | .tagE => 2
  | .m0 => 3
  | .m1 => 4

/-- Canonical bytes of a wire form. -/
def wireBytes (w : List Wire) : List Nat :=
  w.map wireByte

/-- Content hash of an envelope, computed over the canonical serialized
form, from the wrapper method calculate_hash forwarding to
calculate_blake3_hash. -/
def ShinkaiMessage.calculate_hash (m : ShinkaiMessage) : Blake3Digest :=
  calculate_blake3_hash (wireBytes (serializeMessage m))

/-- The placeholder signature carried while the envelope bytes are being
signed; build replaces it with the real signature. -/
def blankSignature : Signature :=
  ⟨[], []⟩

/-- An envelope with its signature field blanked; the canonical bytes of
this form are the bytes the signature covers. -/
def withBlankSignature (m : ShinkaiMessage) : ShinkaiMessage :=
  ⟨m.body, ⟨m.external_metadata.sender, m.external_metadata.recipient,
    m.external_metadata.scheduled_time, blankSignature,
    m.external_metadata.other⟩, m.encryption⟩

/-- Canonical serialized envelope bytes covered by the signature: the
wire bytes of the envelope with its signature field blanked (a signature
cannot cover bytes that contain itself). -/
def signing_bytes (m : ShinkaiMessage) : List Nat :=
  wireBytes (serializeMessage (withBlankSignature m))

/-- A required field missing at build time, in the fixed priority order
body, internal metadata, external metadata from the spec. -/
inductive MissingField where
  | body : MissingField
  | internalMetadata : MissingField
  | externalMetadata : MissingField
deriving DecidableEq, Repr

/-- Builder failure: IncompleteEnvelope names the first missing required
field, from the spec error taxonomy. -/
inductive BuildError where
  | IncompleteEnvelope : MissingField → BuildError
deriving DecidableEq, Repr

/-- External metadata as accumulated by the builder setters (recipient,
sender, optional other, optional scheduled time); the signature is
produced by build itself. -/
structure ExternalMetadataDraft where
  recipient : List Char
  sender : List Char
  other : List Char
  scheduled_time : List Char
deriving DecidableEq, Repr

/-- Modelled from the spec: the builder state behind
ShinkaiMessageBuilderWrapper (the Rust builder is not in the source
tree).  The constructor stores the three key strings; setters accumulate
the required fields body (raw content), internal metadata and external
metadata, plus schema and body-encryption choices. -/
structure ShinkaiMessageBuilderWrapper where
  my_encryption_secret_key : List Char
  my_signature_secret_key : List Char
  receiver_public_key : List Char
  body : Option (List Char)
  message_schema : List Char
  internal_metadata_field : Option InternalMetadata
  external_metadata_field : Option ExternalMetadataDraft
  encryption : EncryptionMethod
deriving DecidableEq, Repr

/-- Builder constructor from the wrapper constructor signature
(my_encryption_secret_key, my_signature_secret_key,
receiver_public_key); starts with no required field set and no body
encryption. -/
def new_builder (my_encryption_secret_key my_signature_secret_key
    receiver_public_key : List Char) : ShinkaiMessageBuilderWrapper :=
  ⟨my_encryption_secret_key, my_signature_secret_key, receiver_public_key,
    none, [], none, none, EncryptionMethod.None⟩

/-- Setter message_raw_content from the wrapper interface. -/
def message_raw_content (st : ShinkaiMessageBuilderWrapper)
    (c : List Char) : ShinkaiMessageBuilderWrapper :=
  { st with body := some c }

/-- Setter message_schema_type from the wrapper interface. -/
def message_schema_type (st : ShinkaiMessageBuilderWrapper)
    (s : List Char) : ShinkaiMessageBuilderWrapper :=
  { st with message_schema := s }

/-- Setter internal_metadata(sender_subidentity, recipient_subidentity,
encryption) from the wrapper interface; the inbox is left empty. -/
def internal_metadata (st : ShinkaiMessageBuilderWrapper)
    (ssub rsub : List Char) (enc : EncryptionMethod) : ShinkaiMessageBuilderWrapper :=
  { st with internal_metadata_field := some ⟨ssub, rsub, [], enc⟩ }

/-- Setter internal_metadata_with_inbox from the wrapper interface. -/
def internal_metadata_with_inbox (st : ShinkaiMessageBuilderWrapper)
    (ssub rsub inbox : List Char) (enc : EncryptionMethod) : ShinkaiMessageBuilderWrapper :=
  { st with internal_metadata_field := some ⟨ssub, rsub, inbox, enc⟩ }

/-- Setter body_encryption from the wrapper interface. -/
def body_encryption (st : ShinkaiMessageBuilderWrapper)
    (enc : EncryptionMethod) : ShinkaiMessageBuilderWrapper :=
  { st with encryption := enc }

/-- Setter no_body_encryption from the wrapper interface. -/
def no_body_encryption (st : ShinkaiMessageBuilderWrapper) : ShinkaiMessageBuilderWrapper :=
  { st with encryption := EncryptionMethod.None }

/-- Modelled from the spec: the ambient clock used for the default
scheduled time, modelled as a constant since the protocol layer treats
time as an external input. -/
def generate_time_now : List Char :=
  []

/-- Setter external_metadata(recipient, sender) from the wrapper
interface; other empty, scheduled time defaulted. -/
def external_metadata (st : ShinkaiMessageBuilderWrapper)
    (recipient sender : List Char) : ShinkaiMessageBuilderWrapper :=
  { st with external_metadata_field := some ⟨recipient, sender, [], generate_time_now⟩ }

/-- Setter external_metadata_with_other from the wrapper interface. -/
def external_metadata_with_other (st : ShinkaiMessageBuilderWrapper)
    (recipient sender other : List Char) : ShinkaiMessageBuilderWrapper :=
  { st with external_metadata_field := some ⟨recipient, sender, other, generate_time_now⟩ }

/-- Modelled from the spec: build() validates the required fields in the
fixed priority order body, internal metadata, external metadata and
fails with IncompleteEnvelope naming the first missing one; otherwise it
applies body encryption when the configured method is not None (deriving
a shared secret from the configured keys), signs the canonical
serialized envelope bytes (signature field blanked) with the signing
key, and returns the finished envelope. -/
def build (st : ShinkaiMessageBuilderWrapper) : Except BuildError ShinkaiMessage :=
  match st.body with
  | none => Except.error (BuildError.IncompleteEnvelope MissingField.body)
  | some raw =>
    match st.internal_metadata_field with
    | none => Except.error (BuildError.IncompleteEnvelope MissingField.internalMetadata)
    | some im =>
      match st.external_metadata_field with
      | none => Except.error (BuildError.IncompleteEnvelope MissingField.externalMetadata)
      | some emd =>
        let d : MessageData := ⟨raw, st.message_schema, im⟩
        let b : MessageBody :=
          match st.encryption with
          | .None => MessageBody.unencrypted d
          | .DiffieHellmanChaChaPoly1305 =>
              MessageBody.encrypted (encrypt
                (wireBytes (serializeBody (MessageBody.unencrypted d)))
                (derive_shared_secret st.my_encryption_secret_key st.receiver_public_key))
        let em0 : ExternalMetadata :=
          ⟨emd.sender, emd.recipient, emd.scheduled_time, blankSignature, emd.other⟩
        let s : Signature :=
          sign (wireBytes (serializeMessage ⟨b, em0, st.encryption⟩))
            st.my_signature_secret_key
        Except.ok ⟨b, ⟨emd.sender, emd.recipient, emd.scheduled_time, s, emd.other⟩,
          st.encryption⟩

/-- Modelled from the spec: build_to_string, the canonical serialized
form of the built envelope. -/
def build_to_string (st : ShinkaiMessageBuilderWrapper) : Except BuildError (List Wire) :=
  (build st).map serializeMessage

/-- Modelled from the spec: the ping_pong_message convenience
constructor, a fixed recipe over the primitive setters: raw content set
to the ping/pong string, empty non-encrypted internal metadata, no body
encryption, external metadata from sender and receiver, then build. -/
def ping_pong_message (message my_encryption_secret_key
    my_signature_secret_key receiver_public_key sender receiver : List Char) :
    Except BuildError (List Wire) :=
  let st0 := new_builder my_encryption_secret_key my_signature_secret_key receiver_public_key
  let st1 := message_raw_content st0 message
  let st2 := internal_metadata st1 [] [] EncryptionMethod.None
  let st3 := no_body_encryption st2
  let st4 := external_metadata st3 receiver sender
  build_to_string st4

/-- Raw content of a message body when it is unencrypted. -/
def bodyRawContent : MessageBody → Option (List Char)
  | .unencrypted d => some d.raw_content
  | .encrypted _ => none

/-- Subidentity kinds beyond the bare None case, from the spec data
model enum for subidentity_type. -/
inductive SubidentityType where
  | Device : SubidentityType
  | Agent : SubidentityType
deriving DecidableEq, Repr

/-- Canonical segment spelling of a subidentity type. -/
def SubidentityType.toSeg : SubidentityType → List Char
  | .Device => ['d', 'e', 'v', 'i', 'c', 'e']
  | .Agent => ['a', 'g', 'e', 'n', 't']

/-- Parse a subidentity-type segment. -/
def parseSubidentityType (s : List Char) : Option SubidentityType :=
  if s = SubidentityType.toSeg .Device then some .Device
  else if s = SubidentityType.toSeg .Agent then some .Agent
  else none

/-- Structured identity name, from the spec data model and the
ShinkaiNameWrapper accessors (node_name, profile_name, subidentity_type,
subidentity_name). -/
structure ShinkaiName where
  node_name : List Char
  profile_name : Option (List Char)
  subidentity_type : Option SubidentityType
  subidentity_name : Option (List Char)
deriving DecidableEq, Repr

/-- Identity parse failure, from the spec error taxonomy. -/
inductive NameError where
  | InvalidIdentityFormat : NameError
  | ComponentMissing : NameError
deriving DecidableEq, Repr

/-- Modelled from the spec: the allowed-character grammar of one
identity segment: lowercase alphanumeric plus a small symbol set; the
hierarchy delimiter is excluded, and case normalization is enforced by
rejecting uppercase input rather than coercing it. -/
def allowedChar (c : Char) : Bool :=
  c.isLower || c.isDigit || c = Char.ofNat 95 || c = Char.ofNat 45 ||
    c = Char.ofNat 46 || c = Char.ofNat 64

/-- A valid identity segment: nonempty and made of allowed characters. -/
def validSeg (s : List Char) : Bool :=
  !s.isEmpty && s.all allowedChar

/-- The hierarchy delimiter of canonical identity strings. -/
def nameDelim : Char := Char.ofNat 47

/-- Split a character list on a delimiter character; the delimiter is
consumed and never appears in the produced segments. -/
def splitOnDelim (d : Char) : List Char → List (List Char)
  | [] => [[]]
  | c :: cs =>
      if c = d then [] :: splitOnDelim d cs
      else
        match splitOnDelim d cs with
        | [] => [[c]]
        | s :: ss => (c :: s) :: ss

/-- Join segments with a delimiter, the inverse of splitOnDelim. -/
def joinWithDelim (d : Char) : List (List Char) → List Char
  | [] => []
  | [s] => s
  | s :: ss => s ++ d :: joinWithDelim d ss

/-- Modelled from the spec: the hierarchy segments of an identity name:
node, then profile when present, then the subidentity type and name
when present (a subidentity requires a profile). -/
def nameSegs (n : ShinkaiName) : List (List Char) :=
  match n.profile_name with
  | none => [n.node_name]
  | some p =>
    match n.subidentity_type, n.subidentity_name with
    | some t, some sn => [n.node_name, p, t.toSeg, sn]
    | _, _ => [n.node_name, p]

/-- Modelled from the spec: to_canonical_string, the hierarchical
delimiter-separated encoding of an identity name. -/
def to_canonical_string (n : ShinkaiName) : List Char :=
  joinWithDelim nameDelim (nameSegs n)

/-- Segment-level step of identity parsing: validates every segment
against the identifier grammar and accepts a bare node, a node with
profile, or a node with profile and a typed subidentity; anything else
fails with InvalidIdentityFormat. -/
def parseSegsName : List (List Char) → Except NameError ShinkaiName :=
  fun segs =>
  if !segs.all validSeg then Except.error NameError.InvalidIdentityFormat
  else
    match segs with
    | [n] => Except.ok ⟨n, none, none, none⟩
    | [n, p] => Except.ok ⟨n, some p, none, none⟩
    | [n, p, t, sn] =>
        match parseSubidentityType t with
        | some ty => Except.ok ⟨n, some p, some ty, some sn⟩
        | none => Except.error NameError.InvalidIdentityFormat
    | _ => Except.error NameError.InvalidIdentityFormat

/-- Modelled from the spec: parse(raw) splits on the hierarchy
delimiter and validates the segments, failing with
InvalidIdentityFormat on malformed input. -/
def parseName (s : List Char) : Except NameError ShinkaiName :=
  parseSegsName (splitOnDelim nameDelim s)

/-- Validity of a structured identity name: every carried segment obeys
the grammar, and a subidentity requires a profile and carries both a
type and a name, matching the spec invariant. -/
def ValidName (n : ShinkaiName) : Prop :=
  validSeg n.node_name = true ∧
  (∀ p, n.profile_name = some p → validSeg p = true) ∧
  (∀ sn, n.subidentity_name = some sn → validSeg sn = true) ∧
  (n.subidentity_type.isSome = n.subidentity_name.isSome) ∧
  (n.subidentity_type.isSome = true → n.profile_name.isSome = true)

instance (n : ShinkaiName) : Decidable (ValidName n) := by
  unfold ValidName
  exact inferInstance

/-- Projection extract_node from the wrapper interface: the bare node
name; the binding glue for extract_node has no error branch, so the
operation is total. -/
def extract_node (n : ShinkaiName) : ShinkaiName :=
  ⟨n.node_name, none, none, none⟩

/-- Projection extract_profile from the wrapper interface: the node plus
profile name; the binding glue checks an error slot, and the operation
fails with ComponentMissing when the source name has no profile. -/
def extract_profile (n : ShinkaiName) : Except NameError ShinkaiName :=
  match n.profile_name with
  | none => Except.error NameError.ComponentMissing
  | some p => Except.ok ⟨n.node_name, some p, none, none⟩

/-- Boolean lexicographic comparison of identity strings, used to sort
the two participants of a regular inbox. -/
def listLe : List Char → List Char → Bool
  | [], _ => true
  | _ :: _, [] => false
  | a :: as, b :: bs =>
      if a < b then true else if b < a then false else listLe as bs

/-- Modelled from the spec: the full identity string of a participant,
the node identity extended with its subidentity when one is given. -/
def fullIdentity (name sub : List Char) : List Char :=
  if sub.isEmpty then name else name ++ nameDelim :: sub

/-- The canonical inbox identifier pieces: the fixed leading tag and the
section separator of the inbox grammar. -/
def inboxHeader : List Char :=
  ['i', 'n', 'b', 'o', 'x']

/-- Section separator of the canonical inbox grammar. -/
def inboxSep : List Char :=
  [':', ':']

/-- Canonical spelling of the end-to-end flag. -/
def e2eSeg (is_e2e : Bool) : List Char :=
  if is_e2e then ['t', 'r', 'u', 'e'] else ['f', 'a', 'l', 's', 'e']

/-- A regular inbox name: its canonical identifier, the sorted
participant identities and the end-to-end flag, following the
InboxNameWrapper accessors (get_value, get_identities, get_is_e2e). -/
structure InboxName where
  value : List Char
  identities : List (List Char)
  is_e2e : Bool
deriving DecidableEq, Repr

/-- Modelled from the spec: get_regular_inbox_name_from_params builds a
Regular inbox from the two participants and the end-to-end flag; it
sorts the two full identity strings lexicographically before encoding,
so the canonical identifier is order independent. -/
def get_regular_inbox_name_from_params (sender sender_subidentity
    recipient recipient_subidentity : List Char) (is_e2e : Bool) : InboxName :=
  let a := fullIdentity sender sender_subidentity
  let b := fullIdentity recipient recipient_subidentity
  let lo := if listLe a b then a else b
  let hi := if listLe a b then b else a
  ⟨inboxHeader ++ inboxSep ++ lo ++ inboxSep ++ hi ++ inboxSep ++ e2eSeg is_e2e,
    [lo, hi], is_e2e⟩

/-- Modelled from the spec: get_job_inbox_name_from_params builds a Job
inbox from the opaque unique id. -/
def get_job_inbox_name_from_params (unique_id : List Char) : InboxName :=
  ⟨['j', 'o', 'b', '_', 'i', 'n', 'b', 'o', 'x'] ++ inboxSep ++ unique_id,
    [], false⟩

/-- A JavaScript value crossing the wasm boundary, restricted to the
shapes the examined call sites produce: a full envelope object or a
bare body object. -/
inductive JsValue where
  | message : ShinkaiMessage → JsValue
  | body : MessageBody → JsValue
deriving DecidableEq, Repr

/-- The wasm-level fromJsValue constructor behind the one-argument
binding-glue constructor of ShinkaiMessageWrapper: it deserializes a
full envelope object and rejects a value that lacks the envelope
fields (a bare body object). -/
def fromJsValue : JsValue → Except WasmError ShinkaiMessage
  | .message m => Except.ok m
  | .body _ => Except.error WasmError.InvalidShinkaiMessage

/-- JSON.parse applied to a canonical envelope string: yields the
structured envelope object on success. -/
def json_parse (s : List Wire) : Except WasmError JsValue :=
  (parseMessage s).map JsValue.message

/-- Property access message.body on a JavaScript value. -/
def jsProjBody : JsValue → JsValue
  | .message m => JsValue.body m.body
  | v => v

/-- The wasm-level from_json_str path: direct deserialization of the
string into an envelope. -/
def wasm_from_json_str (s : List Wire) : Except WasmError ShinkaiMessage :=
  parseMessage s

/-- The app-side wrapper path from the TypeScript source: from_json_str
applies JSON.parse and then the wrapper constructor.  The TypeScript
passes (message.body, message.external_metadata, method) to the wasm
constructor, but the binding glue and the package type declarations give
that constructor exactly one parameter, shinkai_message_js, so only
message.body reaches the wasm deserializer; the remaining arguments are
dropped. -/
def ts_from_json_str (s : List Wire) : Except WasmError ShinkaiMessage :=
  match json_parse s with
  | Except.error e => Except.error e
  | Except.ok j => fromJsValue (jsProjBody j)

/-- A concrete fully-set builder used to evaluate the contracts on a
real run: raw content, empty non-encrypted internal metadata and
external metadata are all set. -/
def demoBuilder : ShinkaiMessageBuilderWrapper :=
  external_metadata
    (internal_metadata
      (message_raw_content
        (new_builder "esk".toList "ssk".toList "rpk".toList)
        "hi".toList)
      [] [] EncryptionMethod.None)
    "@@bob.shinkai".toList "@@alice.shinkai".toList

/-- Fallback envelope for total extraction from a build result. -/
def demoFallback : ShinkaiMessage :=
  ⟨MessageBody.unencrypted ⟨[], [], ⟨[], [], [], EncryptionMethod.None⟩⟩,
    ⟨[], [], [], blankSignature, []⟩, EncryptionMethod.None⟩

/-- The envelope built from the concrete builder. -/
def demoMsg : ShinkaiMessage :=
  (build demoBuilder).toOption.getD demoFallback

/-- The serialized output of the concrete unencrypted ping scenario:
alice to bob, encryption method None, raw content ping. -/
def pingSerialized : Except BuildError (List Wire) :=
  ping_pong_message "ping".toList "esk".toList "ssk".toList "rpk".toList
    "@@alice.shinkai".toList "@@bob.shinkai".toList

theorem readChSeg_chSeg (s : List Char) (rest : List Wire) :
    readChSeg (chSeg s ++ rest) = some (s, rest) := by
  induction s with
  | nil => simp [chSeg, readChSeg]
  | cons c cs ih => simp [chSeg, readChSeg] at ih ⊢; simp [ih]

theorem readByteSeg_byteSeg (s : List Nat) (rest : List Wire) :
    readByteSeg (byteSeg s ++ rest) = some (s, rest) := by
  induction s with
  | nil => simp [byteSeg, readByteSeg]
  | cons b bs ih => simp [byteSeg, readByteSeg] at ih ⊢; simp [ih]

theorem readMethod_methodWire (m : EncryptionMethod) (rest : List Wire) :
    readMethod (methodWire m :: rest) = some (m, rest) := by
  cases m <;> simp [methodWire, readMethod]

theorem readBody_serializeBody (b : MessageBody) (rest : List Wire) :
    readBody (serializeBody b ++ rest) = some (b, rest) := by
  cases b with
  | unencrypted d =>
      simp [serializeBody, readBody, readChSeg_chSeg, readMethod_methodWire]
  | encrypted c =>
      simp [serializeBody, readBody, readByteSeg_byteSeg, readChSeg_chSeg]

theorem readExternal_serializeExternal (em : ExternalMetadata) (rest : List Wire) :
    readExternal (serializeExternal em ++ rest) = some (em, rest) := by
  simp [serializeExternal, readExternal, readChSeg_chSeg, readByteSeg_byteSeg]

theorem parseMessage_serializeMessage (m : ShinkaiMessage) :
    parseMessage (serializeMessage m) = Except.ok m := by
  simp [serializeMessage, parseMessage, readBody_serializeBody,
    readExternal_serializeExternal, readMethod_methodWire]

theorem maskBytes_involutive (k : SharedSecret) (p : List Nat) :
    maskBytes k (maskBytes k p) = p := by
  unfold maskBytes
  rw [List.map_map]
  have h : ((fun b => b ^^^ keyByte k) ∘ fun b => b ^^^ keyByte k) = id := by
    funext b
    simp [Function.comp, Nat.xor_assoc, Nat.xor_self]
  rw [h, List.map_id]

theorem xor_ne_self {b m : Nat} (h : m ≠ 0) : b ^^^ m ≠ b := by
  intro hc
  apply h
  have h2 : b ^^^ (b ^^^ m) = b ^^^ b := by rw [hc]
  rwa [← Nat.xor_assoc, Nat.xor_self, Nat.zero_xor] at h2

theorem set_ne_of_getD {l : List Nat} {i v : Nat} (h : i < l.length)
    (hv : v ≠ l.getD i 0) : l.set i v ≠ l := by
  intro hc
  apply hv
  have h3 := congrArg (fun t => t.getD i 0) hc
  simpa [List.getD_eq_getElem?_getD, List.getElem?_set_self, h] using h3

theorem listLe_total (a : List Char) : ∀ b, listLe a b = true ∨ listLe b a = true := by
  induction a with
  | nil => intro b; left; rfl
  | cons x xs ih =>
    intro b
    cases b with
    | nil => right; rfl
    | cons y ys =>
      rcases lt_trichotomy x y with h | h | h
      · left; simp [listLe, h]
      · subst h
        rcases ih ys with h2 | h2
        · left; simp [listLe, lt_irrefl, h2]
        · right; simp [listLe, lt_irrefl, h2]
      · right; simp [listLe, h]

theorem listLe_antisymm (a : List Char) :
    ∀ b, listLe a b = true → listLe b a = true → a = b := by
  induction a with
  | nil =>
    intro b h1 h2
    cases b with
    | nil => rfl
    | cons y ys => simp [listLe] at h2
  | cons x xs ih =>
    intro b h1 h2
    cases b with
    | nil => simp [listLe] at h1
    | cons y ys =>
      rcases lt_trichotomy x y with h | h | h
      · exfalso; simp [listLe, h, lt_asymm h] at h2
      · subst h
        simp [listLe, lt_irrefl] at h1 h2
        rw [ih ys h1 h2]
      · exfalso; simp [listLe, h, lt_asymm h] at h1

theorem allowedChar_nameDelim : allowedChar nameDelim = false := by decide

theorem validSeg_no_delim {s : List Char} (h : validSeg s = true) : nameDelim ∉ s := by
  intro hm
  unfold validSeg at h
  rw [Bool.and_eq_true, List.all_eq_true] at h
  have h2 := h.2 nameDelim hm
  rw [allowedChar_nameDelim] at h2
  exact Bool.false_ne_true h2

theorem splitOnDelim_no_delim {d : Char} {s : List Char} (h : d ∉ s) :
    splitOnDelim d s = [s] := by
  induction s with
  | nil => rfl
  | cons c cs ih =>
    have hc : ¬(c = d) := fun hcd => h (hcd ▸ List.mem_cons_self c cs)
    have hcs : d ∉ cs := fun hm => h (List.mem_cons_of_mem c hm)
    simp [splitOnDelim, hc, ih hcs]

theorem splitOnDelim_append {d : Char} {s : List Char} (t : List Char) (h : d ∉ s) :
    splitOnDelim d (s ++ d :: t) = s :: splitOnDelim d t := by
  induction s with
  | nil => simp [splitOnDelim]
  | cons c cs ih =>
    have hc : ¬(c = d) := fun hcd => h (hcd ▸ List.mem_cons_self c cs)
    have hcs : d ∉ cs := fun hm => h (List.mem_cons_of_mem c hm)
    simp [splitOnDelim, hc, ih hcs]

theorem splitOnDelim_joinWithDelim {d : Char} :
    ∀ segs : List (List Char), segs ≠ [] → (∀ s ∈ segs, d ∉ s) →
      splitOnDelim d (joinWithDelim d segs) = segs := by
  intro segs
  induction segs with
  | nil => intro hne; exact absurd rfl hne
  | cons s ss ih =>
    intro _ h
    cases ss with
    | nil =>
        simp [joinWithDelim, splitOnDelim_no_delim (h s (List.mem_cons_self s []))]
    | cons s2 ss2 =>
        have hs : d ∉ s := h s (List.mem_cons_self s (s2 :: ss2))
        have hrest : ∀ x ∈ s2 :: ss2, d ∉ x :=
          fun x hx => h x (List.mem_cons_of_mem s hx)
        show splitOnDelim d (s ++ d :: joinWithDelim d (s2 :: ss2)) = s :: s2 :: ss2
        rw [splitOnDelim_append _ hs, ih (by simp) hrest]

theorem validSeg_toSeg (t : SubidentityType) : validSeg t.toSeg = true := by
  cases t <;> decide

theorem parseSubidentityType_toSeg (t : SubidentityType) :
    parseSubidentityType t.toSeg = some t := by
  cases t <;> decide

theorem nameSegs_ne_nil (n : ShinkaiName) : nameSegs n ≠ [] := by
  unfold nameSegs
  cases n.profile_name with
  | none => simp
  | some p =>
      cases n.subidentity_type <;> cases n.subidentity_name <;> simp

theorem nameSegs_valid (n : ShinkaiName) (h : ValidName n) :
    ∀ s ∈ nameSegs n, validSeg s = true := by
  obtain ⟨hnode, hprof, hsnam, htyp, hreq⟩ := h
  unfold nameSegs
  cases hp : n.profile_name with
  | none => simp [hnode]
  | some p =>
      cases ht : n.subidentity_type with
      | none =>
          cases hs : n.subidentity_name with
          | none => simp [hnode, hprof p hp]
          | some sn => rw [ht, hs] at htyp; simp at htyp
      | some t =>
          cases hs : n.subidentity_name with
          | none => rw [ht, hs] at htyp; simp at htyp
          | some sn =>
              simp [hnode, hprof p hp, hsnam sn hs, validSeg_toSeg]

theorem parseSegsName_nameSegs (n : ShinkaiName) (h : ValidName n) :
    parseSegsName (nameSegs n) = Except.ok n := by
  have hall : (nameSegs n).all validSeg = true :=
    List.all_eq_true.mpr (nameSegs_valid n h)
  obtain ⟨node, prof, styp, snam⟩ := n
  obtain ⟨hnode, hprof, hsnam, htyp, hreq⟩ := h
  cases prof with
  | none =>
      have ht0 : styp = none := by
        cases styp with
        | none => rfl
        | some t => exact absurd (hreq (by simp)) (by simp)
      subst ht0
      have hs0 : snam = none := by
        cases snam with
        | none => rfl
        | some sn => simp at htyp
      subst hs0
      simp only [nameSegs] at hall ⊢
      simp [parseSegsName, hall]
  | some p =>
      cases styp with
      | none =>
          have hs0 : snam = none := by
            cases snam with
            | none => rfl
            | some sn => simp at htyp
          subst hs0
          simp only [nameSegs] at hall ⊢
          simp [parseSegsName, hall]
      | some t =>
          cases snam with
          | none => simp at htyp
          | some sn =>
              simp only [nameSegs] at hall ⊢
              simp [parseSegsName, hall, parseSubidentityType_toSeg]

theorem parseSegsName_ok_valid (segs : List (List Char)) (n : ShinkaiName)
    (h : parseSegsName segs = Except.ok n) : ValidName n := by
  unfold parseSegsName at h
  cases hall : segs.all validSeg with
  | false => rw [hall] at h; simp at h
  | true =>
      rw [hall] at h
      simp only [Bool.not_true, Bool.false_eq_true, if_false, if_neg] at h
      rw [List.all_eq_true] at hall
      rcases segs with _ | ⟨a, _ | ⟨b, _ | ⟨c, _ | ⟨d, _ | ⟨e, rest⟩⟩⟩⟩⟩
      · simp at h
      · simp only [Except.ok.injEq] at h
        subst h
        unfold ValidName
        refine ⟨hall a (by simp), ?_, ?_, rfl, ?_⟩
        · intro p hp; simp at hp
        · intro sn hsn; simp at hsn
        · intro hh; exact hh
      · simp only [Except.ok.injEq] at h
        subst h
        unfold ValidName
        refine ⟨hall a (by simp), ?_, ?_, rfl, ?_⟩
        · intro p hp
          simp only [Option.some.injEq] at hp
          rw [← hp]
          exact hall b (by simp)
        · intro sn hsn; simp at hsn
        · intro hh; rfl
      · simp at h
      · have h2 : (match parseSubidentityType c with
            | some ty => Except.ok (⟨a, some b, some ty, some d⟩ : ShinkaiName)
            | none => Except.error NameError.InvalidIdentityFormat) = Except.ok n := h
        cases hty : parseSubidentityType c with
        | none => rw [hty] at h2; simp at h2
        | some ty =>
            rw [hty] at h2
            simp only [Except.ok.injEq] at h2
            subst h2
            unfold ValidName
            refine ⟨hall a (by simp), ?_, ?_, rfl, ?_⟩
            · intro p hp
              simp only [Option.some.injEq] at hp
              rw [← hp]
              exact hall b (by simp)
            · intro sn hsn
              simp only [Option.some.injEq] at hsn
              rw [← hsn]
              exact hall d (by simp)
            · intro hh; rfl
      · simp at h

/-- C3: for every plaintext p and shared secret k, decrypt(encrypt(p, k), k)
returns p; decryption under any mismatched key fails with DecryptionFailed
and returns no plaintext data. -/
theorem decrypt_encrypt_ok_and_fail_closed :
    ∀ (p : List Nat) (k : SharedSecret),
      decrypt (encrypt p k) k = Except.ok p ∧
      ∀ k2 : SharedSecret, k2 ≠ k →
        decrypt (encrypt p k) k2 = Except.error CryptoError.DecryptionFailed := by
  intro p k
  constructor
  · simp [decrypt, encrypt, maskBytes_involutive]
  · intro k2 hk
    simp only [decrypt, encrypt]
    rw [if_neg]
    rintro ⟨h1, h2⟩
    apply hk
    cases k2
    cases k
    simp_all

/-- Concrete run of the decrypt-encrypt contract: round trip on bytes
[1, 2, 3], and failure under a key differing from the encryption key. -/
theorem decrypt_encrypt_ok_and_fail_closed_witness :
    decrypt (encrypt [1, 2, 3] ⟨"ka".toList, "kb".toList⟩)
        ⟨"ka".toList, "kb".toList⟩ = Except.ok [1, 2, 3] ∧
    (⟨"kz".toList, "kb".toList⟩ : SharedSecret) ≠ ⟨"ka".toList, "kb".toList⟩ ∧
    decrypt (encrypt [1, 2, 3] ⟨"ka".toList, "kb".toList⟩)
        ⟨"kz".toList, "kb".toList⟩ = Except.error CryptoError.DecryptionFailed :=
  ⟨(decrypt_encrypt_ok_and_fail_closed [1, 2, 3] ⟨"ka".toList, "kb".toList⟩).1,
   by decide,
   (decrypt_encrypt_ok_and_fail_closed [1, 2, 3] ⟨"ka".toList, "kb".toList⟩).2
     ⟨"kz".toList, "kb".toList⟩ (by decide)⟩

/-- C8: content_hash is deterministic (byte-identical inputs give identical
digests) and any single-bit difference of the input changes the digest. -/
theorem blake3_deterministic_and_bit_sensitive :
    (∀ a b : List Nat, a = b → calculate_blake3_hash a = calculate_blake3_hash b) ∧
    (∀ (input : List Nat) (i j : Nat), i < input.length → j < 8 →
      calculate_blake3_hash (flipBit input i j) ≠ calculate_blake3_hash input) := by
  constructor
  · intro a b h
    rw [h]
  · intro input i j hi hj hc
    have h2 : flipBit input i j = input := by
      have h3 := congrArg Blake3Digest.commits hc
      simpa [calculate_blake3_hash] using h3
    have hne : (input.getD i 0) ^^^ 2 ^ j ≠ input.getD i 0 :=
      xor_ne_self (by positivity)
    exact set_ne_of_getD hi hne h2

/-- Concrete run of the hash contract: equal inputs agree and a one-bit
flip of the single byte 5 changes the digest. -/
theorem blake3_deterministic_and_bit_sensitive_witness :
    calculate_blake3_hash [7] = calculate_blake3_hash [7] ∧
    calculate_blake3_hash (flipBit [5] 0 0) ≠ calculate_blake3_hash [5] :=
  ⟨blake3_deterministic_and_bit_sensitive.1 [7] [7] rfl,
   blake3_deterministic_and_bit_sensitive.2 [5] 0 0 (by decide) (by decide)⟩

/-- C7: the encryption method is the closed two-value enum with ordinals
0 (Diffie-Hellman ChaCha20-Poly1305) and 1 (None); the ordinal assignment
decodes back exactly, and the encryption method of every envelope
round-trips through serialization and parsing. -/
theorem encryption_method_ordinal_roundtrip :
    (EncryptionMethod.DiffieHellmanChaChaPoly1305.ordinal = 0 ∧
      EncryptionMethod.None.ordinal = 1) ∧
    (∀ m : EncryptionMethod, EncryptionMethod.ofOrdinal m.ordinal = some m) ∧
    (∀ msg : ShinkaiMessage,
      (parseMessage (serializeMessage msg)).map ShinkaiMessage.encryption =
        Except.ok msg.encryption) := by
  refine ⟨⟨rfl, rfl⟩, ?_, ?_⟩
  · intro m
    cases m <;> rfl
  · intro msg
    rw [parseMessage_serializeMessage]
    rfl

theorem sortLo_comm (x y : List Char) :
    (if listLe x y then x else y) = (if listLe y x then y else x) := by
  cases hxy : listLe x y with
  | false =>
      cases hyx : listLe y x with
      | false =>
          rcases listLe_total x y with h | h
          · rw [h] at hxy; cases hxy
          · rw [h] at hyx; cases hyx
      | true => simp
  | true =>
      cases hyx : listLe y x with
      | false => simp
      | true =>
          have hx := listLe_antisymm x y hxy hyx
          subst hx
          simp

theorem sortHi_comm (x y : List Char) :
    (if listLe x y then y else x) = (if listLe y x then x else y) := by
  cases hxy : listLe x y with
  | false =>
      cases hyx : listLe y x with
      | false =>
          rcases listLe_total x y with h | h
          · rw [h] at hxy; cases hxy
          · rw [h] at hyx; cases hyx
      | true => simp
  | true =>
      cases hyx : listLe y x with
      | false => simp
      | true =>
          have hx := listLe_antisymm x y hxy hyx
          subst hx
          simp

/-- C1: the Regular inbox identifier is byte-identical under swapping the
two participants (with their subidentities), and differs whenever the
end-to-end flag differs on the same participants. -/
theorem regular_inbox_order_independent_e2e_distinct :
    ∀ (a sa b sb : List Char) (e : Bool),
      (get_regular_inbox_name_from_params a sa b sb e).value =
        (get_regular_inbox_name_from_params b sb a sa e).value ∧
      (get_regular_inbox_name_from_params a sa b sb e).value ≠
        (get_regular_inbox_name_from_params a sa b sb (!e)).value := by
  intro a sa b sb e
  constructor
  · simp only [get_regular_inbox_name_from_params]
    rw [sortLo_comm (fullIdentity a sa) (fullIdentity b sb),
      sortHi_comm (fullIdentity a sa) (fullIdentity b sb)]
  · intro hc
    have hlen := congrArg List.length hc
    simp only [get_regular_inbox_name_from_params, List.length_append] at hlen
    cases e <;> simp [e2eSeg] at hlen

/-- C2: build() on a builder missing a required field fails with
IncompleteEnvelope naming the first missing field in the fixed priority
order body, internal metadata, external metadata; in particular a builder
with body and internal metadata set but no external metadata fails naming
external metadata. -/
theorem build_names_first_missing_field :
    ∀ st : ShinkaiMessageBuilderWrapper,
      (st.body = none →
        build st = Except.error (BuildError.IncompleteEnvelope MissingField.body)) ∧
      (st.body ≠ none → st.internal_metadata_field = none →
        build st = Except.error (BuildError.IncompleteEnvelope MissingField.internalMetadata)) ∧
      (st.body ≠ none → st.internal_metadata_field ≠ none →
        st.external_metadata_field = none →
        build st = Except.error (BuildError.IncompleteEnvelope MissingField.externalMetadata)) := by
  intro st
  refine ⟨?_, ?_, ?_⟩
  · intro hb
    unfold build
    rw [hb]
  · intro hb hi
    cases hbv : st.body with
    | none => exact absurd hbv hb
    | some raw =>
        unfold build
        rw [hbv, hi]
  · intro hb hi he
    cases hbv : st.body with
    | none => exact absurd hbv hb
    | some raw =>
        cases hiv : st.internal_metadata_field with
        | none => exact absurd hiv hi
        | some im =>
            unfold build
            rw [hbv, hiv, he]

/-- Concrete runs of the build error priority: a fresh builder fails
naming body; with body set it fails naming internal metadata; with body
and internal metadata set but no external metadata it fails naming
external metadata. -/
theorem build_names_first_missing_field_witness :
    build (internal_metadata (message_raw_content
        (new_builder "e".toList "s".toList "r".toList) "x".toList)
        [] [] EncryptionMethod.None)
      = Except.error (BuildError.IncompleteEnvelope MissingField.externalMetadata) ∧
    build (new_builder "e".toList "s".toList "r".toList)
      = Except.error (BuildError.IncompleteEnvelope MissingField.body) ∧
    build (message_raw_content (new_builder "e".toList "s".toList "r".toList) "x".toList)
      = Except.error (BuildError.IncompleteEnvelope MissingField.internalMetadata) :=
  ⟨(build_names_first_missing_field _).2.2 (by decide) (by decide) rfl,
   (build_names_first_missing_field _).1 rfl,
   (build_names_first_missing_field _).2.1 (by decide) rfl⟩

/-- C4: for every valid identity name, parsing its canonical string
returns the same structured value; and every string accepted by parse
yields a value that survives the serialize-parse round trip unchanged. -/
theorem identity_name_roundtrip :
    (∀ n : ShinkaiName, ValidName n →
      parseName (to_canonical_string n) = Except.ok n) ∧
    (∀ (s : List Char) (n : ShinkaiName), parseName s = Except.ok n →
      parseName (to_canonical_string n) = Except.ok n) := by
  have main : ∀ n : ShinkaiName, ValidName n →
      parseName (to_canonical_string n) = Except.ok n := by
    intro n h
    unfold parseName to_canonical_string
    rw [splitOnDelim_joinWithDelim (nameSegs n) (nameSegs_ne_nil n)
      (fun s hs => validSeg_no_delim (nameSegs_valid n h s hs))]
    exact parseSegsName_nameSegs n h
  refine ⟨main, ?_⟩
  intro s n h
  exact main n (parseSegsName_ok_valid (splitOnDelim nameDelim s) n h)

/-- Concrete run of the identity round trip on the name alice with
profile main, and on the parse of a concrete canonical string. -/
theorem identity_name_roundtrip_witness :
    ValidName ⟨"alice".toList, some "main".toList, none, none⟩ ∧
    parseName (to_canonical_string ⟨"alice".toList, some "main".toList, none, none⟩) =
      Except.ok ⟨"alice".toList, some "main".toList, none, none⟩ :=
  ⟨by decide,
   identity_name_roundtrip.1 ⟨"alice".toList, some "main".toList, none, none⟩ (by decide)⟩

/-- C9: on every valid identity name, node extraction is total and always
yields a (valid) name, while profile extraction is partial: it succeeds
exactly when the source name carries a profile. -/
theorem extract_node_total_extract_profile_may_fail :
    ∀ n : ShinkaiName, ValidName n →
      ValidName (extract_node n) ∧
      ((extract_profile n).isOk = true ↔ n.profile_name.isSome = true) := by
  intro n h
  obtain ⟨hnode, hprof, hsnam, htyp, hreq⟩ := h
  constructor
  · refine ⟨hnode, ?_, ?_, rfl, ?_⟩
    · intro p hp
      simp [extract_node] at hp
    · intro sn hsn
      simp [extract_node] at hsn
    · intro hh
      exact hh
  · unfold extract_profile
    cases hp : n.profile_name with
    | none => simp [Except.isOk, Except.toBool]
    | some p => simp [Except.isOk, Except.toBool]

/-- Concrete runs of the projection contract: profile extraction fails on
a bare node name and succeeds on a name with a profile, while node
extraction yields a valid name in both cases. -/
theorem extract_node_total_extract_profile_may_fail_witness :
    (ValidName (extract_node ⟨"node1".toList, none, none, none⟩) ∧
      ((extract_profile (⟨"node1".toList, none, none, none⟩ : ShinkaiName)).isOk = true ↔
        (none : Option (List Char)).isSome = true)) ∧
    (ValidName (extract_node ⟨"node1".toList, some "main".toList, none, none⟩) ∧
      ((extract_profile (⟨"node1".toList, some "main".toList, none, none⟩ : ShinkaiName)).isOk = true ↔
        (some "main".toList).isSome = true)) :=
  ⟨extract_node_total_extract_profile_may_fail ⟨"node1".toList, none, none, none⟩ (by decide),
   extract_node_total_extract_profile_may_fail ⟨"node1".toList, some "main".toList, none, none⟩ (by decide)⟩

theorem signing_bytes_mk (b : MessageBody) (snd rcp t oth : List Char)
    (s : Signature) (enc : EncryptionMethod) :
    signing_bytes ⟨b, ⟨snd, rcp, t, s, oth⟩, enc⟩ =
      wireBytes (serializeMessage ⟨b, ⟨snd, rcp, t, blankSignature, oth⟩, enc⟩) :=
  rfl

/-- C5: every envelope produced by build carries a signature that verifies
against the canonical serialized envelope bytes it covers and the
public counterpart of the configured signing key, and verification fails
after any single-byte modification of those bytes. -/
theorem built_envelope_signature_verifies :
    ∀ (st : ShinkaiMessageBuilderWrapper) (msg : ShinkaiMessage),
      build st = Except.ok msg →
      verify (signing_bytes msg) msg.external_metadata.signature
          (public_of_signing_key st.my_signature_secret_key) = true ∧
      ∀ i v : Nat, i < (signing_bytes msg).length →
        v ≠ (signing_bytes msg).getD i 0 →
        verify ((signing_bytes msg).set i v) msg.external_metadata.signature
          (public_of_signing_key st.my_signature_secret_key) = false := by
  intro st msg h
  unfold build at h
  cases hbv : st.body with
  | none => rw [hbv] at h; cases h
  | some raw =>
    rw [hbv] at h
    cases hiv : st.internal_metadata_field with
    | none => rw [hiv] at h; cases h
    | some im =>
      rw [hiv] at h
      cases hev : st.external_metadata_field with
      | none => rw [hev] at h; cases h
      | some emd =>
        rw [hev] at h
        simp only [Except.ok.injEq] at h
        subst h
        rw [signing_bytes_mk]
        constructor
        · simp [verify, sign, public_of_signing_key]
        · intro i v hi hv
          have hne := set_ne_of_getD hi hv
          simp [verify, sign, public_of_signing_key, hne]

/-- Concrete run of the signature contract on the envelope built from the
demo builder: the attached signature verifies, and it fails after the
first byte of the covered serialized bytes is changed to 7. -/
theorem built_envelope_signature_verifies_witness :
    verify (signing_bytes demoMsg) demoMsg.external_metadata.signature
        (public_of_signing_key demoBuilder.my_signature_secret_key) = true ∧
    verify ((signing_bytes demoMsg).set 0 7) demoMsg.external_metadata.signature
        (public_of_signing_key demoBuilder.my_signature_secret_key) = false :=
  ⟨(built_envelope_signature_verifies demoBuilder demoMsg rfl).1,
   (built_envelope_signature_verifies demoBuilder demoMsg rfl).2 0 7
     (by decide) (by decide)⟩

/-- C6: building an unencrypted ping message from alice to bob with
encryption method None and raw content ping, then parsing its serialized
output, yields an envelope whose body raw content is ping and whose
encryption ordinal is 1. -/
theorem ping_scenario_roundtrip :
    (pingSerialized.mapError (fun _ => WasmError.InvalidShinkaiMessage)).bind
        (fun s =>
          (parseMessage s).map (fun m => (bodyRawContent m.body, m.encryption.ordinal))) =
      Except.ok (some "ping".toList, 1) := by
  rfl

/-- C10: evaluation of the two deserialization paths at a concrete valid
serialized envelope: the wasm-level from_json_str parses it back exactly,
while the app-side TypeScript wrapper path, which hands message.body to
the one-argument wasm constructor, fails; the two paths disagree. -/
theorem ts_wasm_from_json_str_disagree :
    wasm_from_json_str (serializeMessage demoMsg) = Except.ok demoMsg ∧
    ts_from_json_str (serializeMessage demoMsg) =
      Except.error WasmError.InvalidShinkaiMessage ∧
    ts_from_json_str (serializeMessage demoMsg) ≠
      wasm_from_json_str (serializeMessage demoMsg) := by
  have h1 : wasm_from_json_str (serializeMessage demoMsg) = Except.ok demoMsg :=
    parseMessage_serializeMessage demoMsg
  have h2 : ts_from_json_str (serializeMessage demoMsg) =
      Except.error WasmError.InvalidShinkaiMessage := by
    unfold ts_from_json_str json_parse
    rw [parseMessage_serializeMessage]
    rfl
  refine ⟨h1, h2, ?_⟩
  rw [h1, h2]
  intro hc
  simp at hc
